import Mathlib

/-!
Shallow embedding of the renderfoot path tracer (Rust) for specification checking.

Two numeric models are used, each faithful to the source at the level the claims probe:

* `Renderfoot.FP` — an IEEE-754-style model of `f32` (`NaN`, signed infinities, finite
  values idealised as rationals; overflow and signed zero are not modelled, as no claim
  exercises them).  It embeds `aabb.rs` (`AABB::hit`, `AABB::surrounding_box`),
  `utils.rs` (`de_nan`, `clamp`) and `sphere.rs` (`Sphere::center`), whose claims are
  about NaN/infinity propagation and order structure.

* `Renderfoot.RealModel` — exact real arithmetic, embedding `materials.rs`
  (`Diffuse`, `Refractive`, `Light`, `reflect`, `refract`, `schlick`) and `sphere.rs`
  (`Sphere::hit`), whose claims are about the exact algebra of the computations.

Types referenced by the sources but absent from `src/` (the revised `Ray` carrying a
time and a precomputed inverse direction, `HitRecord`, `Texture`, `OrthonormalBasis`,
`PDF`) are modelled from the spec; each such definition says so in its doc comment.
-/

namespace Renderfoot

namespace FP

/-- Model of an IEEE-754 binary32 (`f32`) value as used by the renderer: NaN, a signed
infinity, or a finite value idealised as a rational.  Overflow and signed zero are not
modelled; no claim under verification exercises those corners. -/
inductive F : Type where
  | nan : F
  | ninf : F
  | pinf : F
  | fin : ℚ → F
deriving DecidableEq

namespace F

/-- Rust `f32::is_nan`. -/
def isNaN : F → Bool
  | nan => true
  | _ => false

/-- Rust `f32::is_finite`. -/
def isFinite : F → Bool
  | fin _ => true
  | _ => false

/-- IEEE `<=`: NaN compares false against everything, infinities are extreme. -/
def fle : F → F → Bool
  | nan, _ => false
  | _, nan => false
  | ninf, _ => true
  | _, ninf => false
  | _, pinf => true
  | pinf, _ => false
  | fin a, fin b => decide (a ≤ b)

/-- Rust `f32` equality (`==`): NaN is not equal to anything, including itself. -/
def beq : F → F → Bool
  | nan, _ => false
  | _, nan => false
  | ninf, ninf => true
  | pinf, pinf => true
  | fin a, fin b => decide (a = b)
  | _, _ => false

/-- IEEE negation. -/
def neg : F → F
  | nan => nan
  | ninf => pinf
  | pinf => ninf
  | fin a => fin (-a)

/-- IEEE addition: NaN propagates, opposite infinities give NaN. -/
def add : F → F → F
  | nan, _ => nan
  | _, nan => nan
  | pinf, ninf => nan
  | ninf, pinf => nan
  | pinf, _ => pinf
  | _, pinf => pinf
  | ninf, _ => ninf
  | _, ninf => ninf
  | fin a, fin b => fin (a + b)

/-- IEEE subtraction, as `a + (-b)`. -/
def sub (a b : F) : F := add a (neg b)

/-- IEEE multiplication: NaN propagates, infinity times zero is NaN, signs multiply. -/
def mul : F → F → F
  | nan, _ => nan
  | _, nan => nan
  | pinf, pinf => pinf
  | pinf, ninf => ninf
  | ninf, pinf => ninf
  | ninf, ninf => pinf
  | pinf, fin b => if b = 0 then nan else if 0 < b then pinf else ninf
  | fin a, pinf => if a = 0 then nan else if 0 < a then pinf else ninf
  | ninf, fin b => if b = 0 then nan else if 0 < b then ninf else pinf
  | fin a, ninf => if a = 0 then nan else if 0 < a then ninf else pinf
  | fin a, fin b => fin (a * b)

/-- IEEE division: `0/0` and `inf/inf` are NaN, a nonzero finite value divided by zero
is a signed infinity, a finite value divided by infinity is zero.  Only the positive
zero is modelled, so `x / 0` takes the sign of `x`. -/
def div : F → F → F
  | nan, _ => nan
  | _, nan => nan
  | pinf, pinf => nan
  | pinf, ninf => nan
  | ninf, pinf => nan
  | ninf, ninf => nan
  | pinf, fin b => if 0 ≤ b then pinf else ninf
  | ninf, fin b => if 0 ≤ b then ninf else pinf
  | fin _, pinf => fin 0
  | fin _, ninf => fin 0
  | fin a, fin b =>
      if b = 0 then (if a = 0 then nan else if 0 < a then pinf else ninf)
      else fin (a / b)

/-- Rust `f32::min`: if one argument is NaN the other is returned, else the smaller. -/
def fmin (a b : F) : F :=
  if a.isNaN then b else if b.isNaN then a else if fle a b then a else b

/-- Rust `f32::max`: if one argument is NaN the other is returned, else the larger. -/
def fmax (a b : F) : F :=
  if a.isNaN then b else if b.isNaN then a else if fle b a then a else b

end F

/-- Componentwise triple of `f32` values, modelling `nalgebra::Vector3<f32>` /
`glam::Vec3` as used by `aabb.rs`, `utils.rs` and `sphere.rs`. -/
@[ext]
structure Vec3F : Type where
  x : F
  y : F
  z : F
deriving DecidableEq

namespace Vec3F

/-- Indexed access, as in `de_nan`'s `correction[i]`. -/
def nth (v : Vec3F) : Fin 3 → F
  | 0 => v.x
  | 1 => v.y
  | 2 => v.z

/-- Componentwise subtraction. -/
def sub (a b : Vec3F) : Vec3F := ⟨F.sub a.x b.x, F.sub a.y b.y, F.sub a.z b.z⟩

/-- Componentwise addition. -/
def add (a b : Vec3F) : Vec3F := ⟨F.add a.x b.x, F.add a.y b.y, F.add a.z b.z⟩

/-- Scalar multiplication of a vector. -/
def smul (s : F) (v : Vec3F) : Vec3F := ⟨F.mul s v.x, F.mul s v.y, F.mul s v.z⟩

/-- nalgebra `component_mul`. -/
def component_mul (a b : Vec3F) : Vec3F := ⟨F.mul a.x b.x, F.mul a.y b.y, F.mul a.z b.z⟩

/-- nalgebra `zip_map`: componentwise combination of two vectors. -/
def zipWith (f : F → F → F) (a b : Vec3F) : Vec3F := ⟨f a.x b.x, f a.y b.y, f a.z b.z⟩

/-- nalgebra horizontal `max()`: left fold of the components with a partial-order
comparison step (`if acc >= e then acc else e`).  The NaN behaviour of the fold is not
exercised by any theorem below, since both sides of the `AABB::hit` characterisation
use the same fold. -/
def hmax (v : Vec3F) : F :=
  let step := fun acc e => if F.fle e acc then acc else e
  step (step v.x v.y) v.z

/-- nalgebra horizontal `min()`: left fold of the components with a partial-order
comparison step (`if acc <= e then acc else e`). -/
def hmin (v : Vec3F) : F :=
  let step := fun acc e => if F.fle acc e then acc else e
  step (step v.x v.y) v.z

end Vec3F

/-- Modelled from the spec: the revised `Ray` type is absent from `src/` (the
`ray.rs` present is an earlier revision without a time sample); per the spec a ray
carries `{origin, direction, time}` and a precomputed inverse direction used by the
AABB slab test. -/
structure Ray3F : Type where
  origin : Vec3F
  direction : Vec3F
  time : F

namespace Ray3F

/-- Modelled from the spec: the precomputed componentwise reciprocal of the ray
direction, computed with IEEE division so that a zero component yields a signed
infinity rather than a branch. -/
def inverse_direction (r : Ray3F) : Vec3F :=
  ⟨F.div (F.fin 1) r.direction.x, F.div (F.fin 1) r.direction.y,
   F.div (F.fin 1) r.direction.z⟩

end Ray3F

/-- Embedding of `aabb.rs`: an axis-aligned bounding box with minimum and maximum
corner. -/
@[ext]
structure AABB : Type where
  minimum : Vec3F
  maximum : Vec3F
deriving DecidableEq

namespace AABB

/-- Embedding of `AABB::hit` from `aabb.rs`: per-axis slab parameters from the
precomputed inverse direction, componentwise min/max, then a horizontal
max-of-entries against min-of-exits comparison.  The two position arguments are
unused, exactly as in the source. -/
def hit (box : AABB) (ray : Ray3F) (_position_min _position_max : F) : Bool :=
  let t0 := Vec3F.component_mul (Vec3F.sub box.minimum ray.origin) ray.inverse_direction
  let t1 := Vec3F.component_mul (Vec3F.sub box.maximum ray.origin) ray.inverse_direction
  let tmin := Vec3F.zipWith F.fmin t0 t1
  let tmax := Vec3F.zipWith F.fmax t1 t0
  F.fle tmin.hmax tmax.hmin

/-- Embedding of `AABB::surrounding_box` from `aabb.rs`: componentwise min of the
minimums and max of the maximums. -/
def surrounding_box (box other : AABB) : AABB :=
  ⟨Vec3F.zipWith F.fmin box.minimum other.minimum,
   Vec3F.zipWith F.fmax box.maximum other.maximum⟩

/-- Point membership in a box, componentwise `minimum <= p <= maximum` with the IEEE
comparison; used to state the containment part of the `surrounding_box` claim. -/
def containsPoint (box : AABB) (p : Vec3F) : Bool :=
  F.fle box.minimum.x p.x && F.fle p.x box.maximum.x &&
  (F.fle box.minimum.y p.y && F.fle p.y box.maximum.y) &&
  (F.fle box.minimum.z p.z && F.fle p.z box.maximum.z)

/-- Statement of the slab test in the words of the spec, for comparison with
`AABB.hit`: the per-axis slab entry parameter is the smaller of the two slab
parameters and the exit the larger, both computed with the precomputed inverse
direction; the test succeeds iff the componentwise maximum of the entries is at most
the componentwise minimum of the exits. -/
def slabTest (box : AABB) (ray : Ray3F) : Bool :=
  let t0 := Vec3F.component_mul (Vec3F.sub box.minimum ray.origin) ray.inverse_direction
  let t1 := Vec3F.component_mul (Vec3F.sub box.maximum ray.origin) ray.inverse_direction
  let entry := Vec3F.zipWith F.fmin t0 t1
  let exits := Vec3F.zipWith F.fmax t0 t1
  F.fle entry.hmax exits.hmin

end AABB

/-- Embedding of the `Sphere` data of `sphere.rs` over the `f32` model: only the
fields that `Sphere::center` reads are touched by the claims, but all fields of the
source struct are kept; the shared material reference is an abstract type parameter. -/
structure SphereF (μ : Type) : Type where
  start_center : Vec3F
  end_center : Vec3F
  radius : F
  material : μ
  start_time : F
  end_time : F

namespace SphereF

/-- Embedding of `Sphere::center` from `sphere.rs`:
`start_center + ((time - start_time) / (end_time - start_time)) * (end_center - start_center)`,
with no guard on a zero-length time interval. -/
def center {μ : Type} (s : SphereF μ) (time : F) : Vec3F :=
  Vec3F.add s.start_center
    (Vec3F.smul (F.div (F.sub time s.start_time) (F.sub s.end_time s.start_time))
      (Vec3F.sub s.end_center s.start_center))

end SphereF

/-- Concrete sphere with a zero-length time interval (`start_time == end_time`),
used to exercise the `Sphere::center` division guard claim. -/
def sphereF0 : SphereF Unit :=
  ⟨⟨F.fin 1, F.fin 2, F.fin 3⟩, ⟨F.fin 4, F.fin 5, F.fin 6⟩, F.fin 1, (),
    F.fin 0, F.fin 0⟩

/-- Embedding of `de_nan` from `utils.rs`: every NaN component of the color is
replaced by zero; all other components (including infinities) are left unchanged. -/
def de_nan (color : Vec3F) : Vec3F :=
  ⟨if color.x.isNaN then F.fin 0 else color.x,
   if color.y.isNaN then F.fin 0 else color.y,
   if color.z.isNaN then F.fin 0 else color.z⟩

/-- Embedding of `clamp` from `utils.rs`: `n.min(255.0).max(0.0)` with Rust `f32`
min/max semantics. -/
def clamp (n : F) : F := F.fmax (F.fmin n (F.fin 255)) (F.fin 0)

end FP

namespace RealModel

/-- Exact-real model of the `f32` vector type (`nalgebra::Vector3<f32>` /
`glam::Vec3`) used by `materials.rs` and `sphere.rs`.  Rounding is not modelled; the
claims settled in this model are about the exact algebra of the computations. -/
@[ext]
structure Vec3 : Type where
  x : ℝ
  y : ℝ
  z : ℝ

namespace Vec3

instance : Add Vec3 := ⟨fun a b => ⟨a.x + b.x, a.y + b.y, a.z + b.z⟩⟩

instance : Sub Vec3 := ⟨fun a b => ⟨a.x - b.x, a.y - b.y, a.z - b.z⟩⟩

instance : Neg Vec3 := ⟨fun a => ⟨-a.x, -a.y, -a.z⟩⟩

instance : SMul ℝ Vec3 := ⟨fun s v => ⟨s * v.x, s * v.y, s * v.z⟩⟩

/-- nalgebra `Vector3::zeros()`. -/
def zeros : Vec3 := ⟨0, 0, 0⟩

/-- Dot product. -/
def dot (a b : Vec3) : ℝ := a.x * b.x + a.y * b.y + a.z * b.z

/-- Cross product. -/
def cross (a b : Vec3) : Vec3 :=
  ⟨a.y * b.z - a.z * b.y, a.z * b.x - a.x * b.z, a.x * b.y - a.y * b.x⟩

/-- Euclidean norm, nalgebra `norm()`. -/
noncomputable def norm (v : Vec3) : ℝ := Real.sqrt (v.dot v)

/-- Componentwise division of a vector by a scalar. -/
noncomputable def divScalar (v : Vec3) (s : ℝ) : Vec3 := ⟨v.x / s, v.y / s, v.z / s⟩

/-- nalgebra `normalize()`: the vector divided by its norm. -/
noncomputable def normalize (v : Vec3) : Vec3 := v.divScalar v.norm

end Vec3

/-- Modelled from the spec: the revised `Ray` type of the renderer is absent from
`src/` (the `ray.rs` present is an earlier revision without the time sample); per the
spec a ray is `{origin, direction, time}`. -/
structure Ray : Type where
  origin : Vec3
  direction : Vec3
  time : ℝ

/-- Modelled from the spec: parameterized point evaluation `origin + t * direction`,
matching the earlier revision's `point_at_perimeter` and the `point_at_parameter`
call in `sphere.rs`. -/
noncomputable def Ray.point_at_parameter (r : Ray) (t : ℝ) : Vec3 :=
  r.origin + t • r.direction

/-- Modelled from the spec: `hitable.rs` is absent from `src/`; the field list is the
spec's data model for `HitRecord` and matches the positional constructor call in
`sphere.rs`.  The shared material reference is an abstract type parameter. -/
structure HitRecord (μ : Type) : Type where
  t : ℝ
  u : ℝ
  v : ℝ
  point : Vec3
  geometric_normal : Vec3
  shading_normal : Vec3
  material : μ

/-- Modelled from the spec: `texture.rs` is absent from `src/`; per the spec a
texture is a pure function from surface coordinates (and point) to a color. -/
def Texture : Type := ℝ → ℝ → Vec3 → Vec3

/-- Texture lookup, the `value(u, v, point)` method of the `Texture` trait. -/
def Texture.value (tex : Texture) (u v : ℝ) (p : Vec3) : Vec3 := tex u v p

/-- Modelled from the spec: `basis.rs` is absent from `src/`.  A right-handed local
frame `{u, v, w}`. -/
structure OrthonormalBasis : Type where
  u : Vec3
  v : Vec3
  w : Vec3

/-- Modelled from the spec: `w` is the normal; the helper axis is switched when
nearly parallel to `w` (threshold `0.9` on the first component, as in the reference
implementation of this constructor); `u` is the normalized cross of helper and `w`,
and `v = w x u`. -/
noncomputable def OrthonormalBasis.new (normal : Vec3) : OrthonormalBasis :=
  let w := normal
  let helper : Vec3 := if 9 / 10 < |w.x| then ⟨0, 1, 0⟩ else ⟨1, 0, 0⟩
  let u := (Vec3.cross helper w).normalize
  let v := Vec3.cross w u
  ⟨u, v, w⟩

/-- Modelled from the spec: `pdf.rs` is absent from `src/`; the only variant
constructed by `materials.rs` is `CosinePDF { uvw }`. -/
inductive PDF : Type where
  | CosinePDF (uvw : OrthonormalBasis) : PDF

/-- Embedding of `ScatterRecord` from `materials.rs`. -/
structure ScatterRecord : Type where
  specular_ray : Ray
  attenuation : Vec3
  pdf : PDF
  specular : Bool

/-- Explicit model of the `&mut ThreadRng` handle passed to every `scatter` call: a
stream of uniform draws.  None of the materials under verification consume it —
`Diffuse::scatter` and `Refractive::scatter` bind it as `_rng` in the source. -/
def Rng : Type := ℕ → ℝ

/-- Embedding of the `Diffuse` material of `materials.rs`: it owns a texture. -/
structure Diffuse : Type where
  albedo : Texture

/-- Embedding of `Diffuse::scatter` from `materials.rs`: the returned ray starts at
the hit point with direction `ray.direction.normalize()` and the incoming time; the
attenuation is the texture value at `(u, v, point)`; the pdf is a cosine PDF built on
the shading normal; the record is not specular.  The rng argument is unused, exactly
as in the source (`_rng`). -/
noncomputable def Diffuse.scatter {μ : Type} (m : Diffuse) (ray : Ray)
    (record : HitRecord μ) (_rng : Rng) : Option ScatterRecord :=
  let scattered := Ray.mk record.point ray.direction.normalize ray.time
  let attenuation := m.albedo.value record.u record.v record.point
  let pdf := PDF.CosinePDF (OrthonormalBasis.new record.shading_normal)
  some ⟨scattered, attenuation, pdf, false⟩

/-- Embedding of `Diffuse::scattering_pdf` from `materials.rs`. -/
noncomputable def Diffuse.scattering_pdf {μ : Type} (_m : Diffuse) (_ray : Ray)
    (record : HitRecord μ) (scattered : Ray) : ℝ :=
  let cosine := max (record.shading_normal.dot scattered.direction.normalize) 0
  cosine / Real.pi

/-- Embedding of `reflect` from `materials.rs`: `v - 2 * dot(v, n) * n`. -/
noncomputable def reflect (v n : Vec3) : Vec3 := v - (2 * v.dot n) • n

/-- Embedding of `refract` from `materials.rs`: Snell refraction, `none` on total
internal reflection (`discriminant <= 0`). -/
noncomputable def refract (v n : Vec3) (refractive_index : ℝ) : Option Vec3 :=
  let uv := v.normalize
  let direction := uv.dot n
  let discriminant := 1 - refractive_index * refractive_index * (1 - direction * direction)
  if 0 < discriminant then
    some (refractive_index • (uv - direction • n) - Real.sqrt discriminant • n)
  else
    none

/-- Embedding of `schlick` from `materials.rs`.  The source computes
`(1.0 - cosine).powf(5.0)`; this is embedded as the fifth power, with which `powf`
agrees whenever `1 - cosine` is nonnegative (the domain arising in the tracer). -/
noncomputable def schlick (cosine reference_index : ℝ) : ℝ :=
  let r0 := (1 - reference_index) / (1 + reference_index)
  let r1 := r0 * r0
  r1 + (1 - r1) * (1 - cosine) ^ (5 : ℕ)

/-- Embedding of the `Refractive` material of `materials.rs`. -/
structure Refractive : Type where
  refractive_index : ℝ

/-- Embedding of `Refractive::scatter` from `materials.rs`.  The source binds its rng
parameter as `_rng` and never reads it; the probabilistic reflect-or-refract choice
instead calls `rand::random::<f32>()`, which draws from the hidden thread-local
global RNG.  That hidden draw is made explicit here as the extra `globalRand`
argument, distinct from the supplied `_rng` stream.  The source's
`refracted.unwrap()` in the refraction branch is modelled with a default value; it is
unreachable when `globalRand` lies in `[0,1)` as `rand::random` guarantees, because a
failed refraction forces `reflect_probability = 1`. -/
noncomputable def Refractive.scatter {μ : Type} (m : Refractive) (ray : Ray)
    (record : HitRecord μ) (_rng : Rng) (globalRand : ℝ) : Option ScatterRecord :=
  let reflected := reflect ray.direction.normalize record.shading_normal
  let incident := ray.direction.dot record.shading_normal
  let onrc :=
    if 0 < incident then
      (-record.shading_normal, m.refractive_index,
        m.refractive_index * (ray.direction.dot record.shading_normal) /
          ray.direction.norm)
    else
      (record.shading_normal, 1 / m.refractive_index,
        -(ray.direction.dot record.shading_normal) / ray.direction.norm)
  let outward_normal := onrc.1
  let refractive_index := onrc.2.1
  let cosine := onrc.2.2
  let refracted := refract ray.direction outward_normal refractive_index
  let reflect_probability :=
    match refracted with
    | some _ => schlick cosine m.refractive_index
    | none => 1
  let attenuation : Vec3 := ⟨1, 1, 1⟩
  let pdf := PDF.CosinePDF (OrthonormalBasis.new record.shading_normal)
  if globalRand < reflect_probability then
    some ⟨Ray.mk record.point reflected ray.time, attenuation, pdf, true⟩
  else
    some ⟨Ray.mk record.point (refracted.getD ⟨0, 0, 0⟩) ray.time, attenuation, pdf, true⟩

/-- Embedding of the `Light` emitter material of `materials.rs`: it owns an emission
texture. -/
structure Light : Type where
  emit : Texture

/-- Embedding of `Light::scatter` from `materials.rs`: a light never scatters. -/
def Light.scatter {μ : Type} (_m : Light) (_ray : Ray) (_record : HitRecord μ)
    (_rng : Rng) : Option ScatterRecord :=
  none

/-- Embedding of `Light::emitted` from `materials.rs`: the texture value at
`(u, v, point)` when the shading normal faces the incoming ray
(`dot(shading_normal, ray.direction) < 0`), the zero vector otherwise. -/
noncomputable def Light.emitted {μ : Type} (m : Light) (ray : Ray)
    (hit : HitRecord μ) : Vec3 :=
  if hit.shading_normal.dot ray.direction < 0 then
    m.emit.value hit.u hit.v hit.point
  else
    Vec3.zeros

/-- Embedding of the `Sphere` struct of `sphere.rs` (exact-real model); the shared
material reference is an abstract type parameter. -/
structure Sphere (μ : Type) : Type where
  start_center : Vec3
  end_center : Vec3
  radius : ℝ
  material : μ
  start_time : ℝ
  end_time : ℝ

/-- Embedding of `Sphere::center` from `sphere.rs` (exact-real model). -/
noncomputable def Sphere.center {μ : Type} (s : Sphere μ) (time : ℝ) : Vec3 :=
  s.start_center +
    ((time - s.start_time) / (s.end_time - s.start_time)) •
      (s.end_center - s.start_center)

/-- Real-valued `atan2`, the angle of the point `(x, y)`: embeds Rust
`z.atan2(x)` as `atan2 z x`. -/
noncomputable def atan2 (y x : ℝ) : ℝ := Complex.arg ⟨x, y⟩

/-- Embedding of `get_sphere_uv` from `sphere.rs`: spherical `(phi, theta)` texture
coordinates. -/
noncomputable def get_sphere_uv (p : Vec3) : ℝ × ℝ :=
  let phi := atan2 p.z p.x
  let theta := Real.arcsin p.y
  let u := 1 - (phi + Real.pi) / (2 * Real.pi)
  let v := (theta + Real.pi / 2) / Real.pi
  (u, v)

/-- Embedding of `Sphere::hit` from `sphere.rs` (the `Hitable` impl): quadratic
set-up, discriminant test, and the two-root loop unrolled into its two iterations
(near root first, then far root). -/
noncomputable def Sphere.hit {μ : Type} (s : Sphere μ) (ray : Ray)
    (position_min position_max : ℝ) : Option (HitRecord μ) :=
  let sphere_center := ray.origin - s.center ray.time
  let a := ray.direction.dot ray.direction
  let b := sphere_center.dot ray.direction
  let c := sphere_center.dot sphere_center - s.radius * s.radius
  let discriminant := b * b - a * c
  if 0 < discriminant then
    let recordAt : ℝ → Option (HitRecord μ) := fun root =>
      let point := ray.point_at_parameter root
      let normal := (point - s.center ray.time).divScalar s.radius
      let uv := get_sphere_uv normal
      some ⟨root, uv.1, uv.2, point, normal, normal, s.material⟩
    let first_root := (-b - Real.sqrt discriminant) / a
    let second_root := (-b + Real.sqrt discriminant) / a
    if position_min < first_root ∧ first_root < position_max then
      recordAt first_root
    else if position_min < second_root ∧ second_root < position_max then
      recordAt second_root
    else
      none
  else
    none

/-- Discriminant of the sphere intersection quadratic as computed by `Sphere::hit`
(`b * b - a * c` in the source's half-coefficient form; it has the sign of the
standard discriminant of the quadratic). -/
noncomputable def Sphere.hitDiscriminant {μ : Type} (s : Sphere μ) (ray : Ray) : ℝ :=
  let sphere_center := ray.origin - s.center ray.time
  let a := ray.direction.dot ray.direction
  let b := sphere_center.dot ray.direction
  let c := sphere_center.dot sphere_center - s.radius * s.radius
  b * b - a * c

/-- Statement-side predicate from the claim: `t` is a real root of the sphere
intersection quadratic `|o + t d - c(time)|^2 = r^2`. -/
def Sphere.IsRoot {μ : Type} (s : Sphere μ) (ray : Ray) (t : ℝ) : Prop :=
  (ray.point_at_parameter t - s.center ray.time).dot
      (ray.point_at_parameter t - s.center ray.time) =
    s.radius * s.radius

/-- Concrete texture returning the constant color `(1/2, 1/2, 1/2)`. -/
noncomputable def texHalf : Texture := fun _ _ _ => ⟨1 / 2, 1 / 2, 1 / 2⟩

/-- Concrete texture returning the constant color `(5, 5, 5)`. -/
def texFive : Texture := fun _ _ _ => ⟨5, 5, 5⟩

/-- Concrete diffuse material with the constant gray texture. -/
noncomputable def diffuseHalf : Diffuse := ⟨texHalf⟩

/-- Concrete refractive material with index `3/2` (glass). -/
noncomputable def refrGlass : Refractive := ⟨3 / 2⟩

/-- Concrete light with the constant texture `(5, 5, 5)`. -/
def lightFive : Light := ⟨texFive⟩

/-- Concrete ray from the origin straight down the negative z axis at time `0`. -/
def rayNegZ : Ray := ⟨⟨0, 0, 0⟩, ⟨0, 0, -1⟩, 0⟩

/-- Concrete hit record at the origin whose shading normal points up the z axis, so
the ray `rayNegZ` hits its front side. -/
def recordUpZ : HitRecord Unit := ⟨1, 0, 0, ⟨0, 0, 0⟩, ⟨0, 0, 1⟩, ⟨0, 0, 1⟩, ()⟩

/-- Concrete RNG stream that always returns `0`. -/
def rngZero : Rng := fun _ => 0

/-- Concrete RNG stream that always returns `1/2`. -/
noncomputable def rngHalf : Rng := fun _ => 1 / 2

/-- Concrete static sphere at `(0,0,-1)` with radius `1/2`, the worked example of the
spec's testable properties. -/
noncomputable def sphereC3 : Sphere Unit := ⟨⟨0, 0, -1⟩, ⟨0, 0, -1⟩, 1 / 2, (), 0, 1⟩

end RealModel

namespace RealModel

namespace Vec3

@[simp] theorem add_x (a b : Vec3) : (a + b).x = a.x + b.x := rfl

@[simp] theorem add_y (a b : Vec3) : (a + b).y = a.y + b.y := rfl

@[simp] theorem add_z (a b : Vec3) : (a + b).z = a.z + b.z := rfl

@[simp] theorem sub_x (a b : Vec3) : (a - b).x = a.x - b.x := rfl

@[simp] theorem sub_y (a b : Vec3) : (a - b).y = a.y - b.y := rfl

@[simp] theorem sub_z (a b : Vec3) : (a - b).z = a.z - b.z := rfl

@[simp] theorem neg_x (a : Vec3) : (-a).x = -a.x := rfl

@[simp] theorem neg_y (a : Vec3) : (-a).y = -a.y := rfl

@[simp] theorem neg_z (a : Vec3) : (-a).z = -a.z := rfl

@[simp] theorem smul_x (s : ℝ) (a : Vec3) : (s • a).x = s * a.x := rfl

@[simp] theorem smul_y (s : ℝ) (a : Vec3) : (s • a).y = s * a.y := rfl

@[simp] theorem smul_z (s : ℝ) (a : Vec3) : (s • a).z = s * a.z := rfl

/-- Norm of the concrete direction `(0, 0, -1)` is `1`. -/
theorem norm_negz : (Vec3.mk 0 0 (-1)).norm = 1 := by
  simp [Vec3.norm, Vec3.dot]

/-- Normalizing the concrete direction `(0, 0, -1)` leaves it unchanged. -/
theorem normalize_negz : (Vec3.mk 0 0 (-1)).normalize = Vec3.mk 0 0 (-1) := by
  simp [Vec3.normalize, norm_negz, Vec3.divScalar]

end Vec3

/-- C5 (amended): schlick's approximation as implemented equals
`r0 + (1 - r0) * (1 - cos)^5` with `r0 = ((1 - ri)/(1 + ri))^2` for every cosine and
index; in particular `schlick(1, 1.5)` equals `((1 - 1.5)/(1 + 1.5))^2 = 1/25 = 0.04`
exactly, while at cosine `0` the function evaluates to `1`. -/
theorem schlick_formula :
    (∀ cosine reference_index : ℝ,
      schlick cosine reference_index =
        ((1 - reference_index) / (1 + reference_index)) ^ 2 +
          (1 - ((1 - reference_index) / (1 + reference_index)) ^ 2) *
            (1 - cosine) ^ 5) ∧
    schlick 1 (3 / 2) = 1 / 25 ∧ schlick 0 (3 / 2) = 1 := by
  refine ⟨fun cosine reference_index => ?_, ?_, ?_⟩
  · simp only [schlick]
    ring
  · norm_num [schlick]
  · norm_num [schlick]

/-- C5 counterexample: the claim's spot check `schlick(0, 1.5) ≈ 0.04` is false — at
cosine `0` (grazing incidence) the implemented Schlick approximation evaluates to
exactly `1`, nowhere near `0.04`; the value `0.04` is attained at cosine `1` (normal
incidence). -/
theorem schlick_zero_counterexample :
    schlick 0 (3 / 2) = 1 ∧ (1 / 2 : ℝ) < schlick 0 (3 / 2) := by
  norm_num [schlick]

/-- C4: refract returns none exactly when the discriminant
`1 - ratio^2 * (1 - (normalize(v) . n)^2)` is not positive (total internal
reflection), and otherwise returns
`ratio * (normalize(v) - n * (normalize(v) . n)) - n * sqrt(discriminant)`. -/
theorem refract_correct (v n : Vec3) (refractive_index : ℝ) :
    (refract v n refractive_index = none ↔
      1 - refractive_index ^ 2 * (1 - (v.normalize.dot n) ^ 2) ≤ 0) ∧
    (0 < 1 - refractive_index ^ 2 * (1 - (v.normalize.dot n) ^ 2) →
      refract v n refractive_index =
        some (refractive_index • (v.normalize - (v.normalize.dot n) • n) -
          Real.sqrt (1 - refractive_index ^ 2 * (1 - (v.normalize.dot n) ^ 2)) • n)) := by
  have hdisc :
      1 - refractive_index * refractive_index *
          (1 - v.normalize.dot n * v.normalize.dot n) =
        1 - refractive_index ^ 2 * (1 - (v.normalize.dot n) ^ 2) := by ring
  constructor
  · simp only [refract, hdisc]
    split_ifs with h
    · simp [not_le.mpr h]
    · simp [not_lt.mp h]
  · intro h
    simp only [refract, hdisc, if_pos h]

/-- C4 witness: for `v = (0, 0, -1)`, `n = (0, 0, 1)` and ratio `2/3` the
discriminant equals `1 > 0` and refract returns the stated refracted vector. -/
theorem refract_correct_witness :
    0 < 1 - (2 / 3 : ℝ) ^ 2 *
        (1 - ((Vec3.mk 0 0 (-1)).normalize.dot (Vec3.mk 0 0 1)) ^ 2) ∧
    refract (Vec3.mk 0 0 (-1)) (Vec3.mk 0 0 1) (2 / 3) =
      some ((2 / 3 : ℝ) • ((Vec3.mk 0 0 (-1)).normalize -
          ((Vec3.mk 0 0 (-1)).normalize.dot (Vec3.mk 0 0 1)) • Vec3.mk 0 0 1) -
        Real.sqrt (1 - (2 / 3 : ℝ) ^ 2 *
          (1 - ((Vec3.mk 0 0 (-1)).normalize.dot (Vec3.mk 0 0 1)) ^ 2)) •
          Vec3.mk 0 0 1) := by
  have h : 0 < 1 - (2 / 3 : ℝ) ^ 2 *
      (1 - ((Vec3.mk 0 0 (-1)).normalize.dot (Vec3.mk 0 0 1)) ^ 2) := by
    norm_num [Vec3.normalize_negz, Vec3.dot]
  exact ⟨h, (refract_correct _ _ _).2 h⟩

/-- C1 (amended): Diffuse::scatter always returns a record that is not specular,
whose attenuation is the texture value at the hit's `(u, v, point)` and whose pdf is
a cosine PDF built about the hit's shading normal; but the scattered ray it returns
is not a cosine-weighted hemisphere sample — its direction is the normalized
incoming ray direction, independent of the RNG (the cosine-weighted sampling is
deferred to the PDF carried in the record). -/
theorem diffuse_scatter_eq {μ : Type} (m : Diffuse) (ray : Ray)
    (record : HitRecord μ) (rng : Rng) :
    m.scatter ray record rng =
      some ⟨Ray.mk record.point ray.direction.normalize ray.time,
        m.albedo.value record.u record.v record.point,
        PDF.CosinePDF (OrthonormalBasis.new record.shading_normal), false⟩ := rfl

/-- C1 counterexample: for the concrete incoming ray straight down the negative z
axis onto a hit whose shading normal is `+z`, the scattered ray's direction is
`(0, 0, -1)`: it has negative cosine against the shading normal, hence lies outside
the support of any cosine-weighted hemisphere about that normal, and it is identical
for two different RNG streams — so it is not a sample drawn from a cosine-weighted
hemisphere about the shading normal. -/
theorem diffuse_scatter_counterexample :
    ((diffuseHalf.scatter rayNegZ recordUpZ rngZero).map
        fun sr => sr.specular_ray.direction) = some (Vec3.mk 0 0 (-1)) ∧
    (Vec3.mk 0 0 1).dot (Vec3.mk 0 0 (-1)) < 0 ∧
    diffuseHalf.scatter rayNegZ recordUpZ rngZero =
      diffuseHalf.scatter rayNegZ recordUpZ rngHalf := by
  refine ⟨?_, by norm_num [Vec3.dot], rfl⟩
  simp [Diffuse.scatter, rayNegZ, Vec3.normalize_negz]

/-- C9: Light::scatter always returns none, and Light::emitted returns the texture
value at `(u, v, point)` exactly when `dot(shading_normal, ray.direction) < 0` and
the zero vector otherwise (one-sided emission). -/
theorem light_scatter_emitted {μ : Type} (m : Light) (ray : Ray) (hit : HitRecord μ)
    (rng : Rng) :
    m.scatter ray hit rng = none ∧
    (hit.shading_normal.dot ray.direction < 0 →
      m.emitted ray hit = m.emit.value hit.u hit.v hit.point) ∧
    (¬ hit.shading_normal.dot ray.direction < 0 →
      m.emitted ray hit = Vec3.zeros) := by
  refine ⟨rfl, fun h => ?_, fun h => ?_⟩
  · simp only [Light.emitted]
    rw [if_pos h]
  · simp only [Light.emitted]
    rw [if_neg h]

/-- C9 witness: the concrete front-side hit (`dot = -1 < 0`) emits the texture's
constant color `(5, 5, 5)`. -/
theorem light_scatter_emitted_witness :
    recordUpZ.shading_normal.dot rayNegZ.direction < 0 ∧
    lightFive.emitted rayNegZ recordUpZ = Vec3.mk 5 5 5 := by
  have h : recordUpZ.shading_normal.dot rayNegZ.direction < 0 := by
    norm_num [Vec3.dot, recordUpZ, rayNegZ]
  refine ⟨h, ?_⟩
  have h2 := (light_scatter_emitted lightFive rayNegZ recordUpZ rngZero).2.1 h
  simpa [lightFive, texFive, Texture.value] using h2

/-- Evaluation of refract on the concrete front-side refraction used to separate the
two branches of Refractive::scatter. -/
theorem refract_negz_eval :
    refract (Vec3.mk 0 0 (-1)) (Vec3.mk 0 0 1) (1 / (3 / 2)) =
      some (Vec3.mk 0 0 (-1)) := by
  have h23 : (1 : ℝ) / (3 / 2) = 2 / 3 := by norm_num
  simp only [refract, Vec3.normalize_negz, h23]
  rw [if_pos (by norm_num [Vec3.dot])]
  norm_num [Vec3.dot]
  ext <;> simp

/-- Evaluation of Refractive::scatter for the glass material on the concrete
front-side hit: the branch taken compares the hidden global draw `g` against
`schlick(1, 3/2) = 1/25`; the reflected direction is `(0, 0, 1)` and the refracted
one `(0, 0, -1)`. -/
theorem refrGlass_scatter_eval (g : ℝ) :
    refrGlass.scatter rayNegZ recordUpZ rngZero g =
      if g < 1 / 25 then
        some ⟨Ray.mk (Vec3.mk 0 0 0) (Vec3.mk 0 0 1) 0, ⟨1, 1, 1⟩,
          PDF.CosinePDF (OrthonormalBasis.new (Vec3.mk 0 0 1)), true⟩
      else
        some ⟨Ray.mk (Vec3.mk 0 0 0) (Vec3.mk 0 0 (-1)) 0, ⟨1, 1, 1⟩,
          PDF.CosinePDF (OrthonormalBasis.new (Vec3.mk 0 0 1)), true⟩ := by
  have hincident : ¬ (0 : ℝ) < ((Vec3.mk 0 0 (-1)).dot (Vec3.mk 0 0 1)) := by
    norm_num [Vec3.dot]
  have hreflect : reflect (Vec3.mk 0 0 (-1)).normalize (Vec3.mk 0 0 1) =
      Vec3.mk 0 0 1 := by
    rw [Vec3.normalize_negz]
    simp only [reflect]
    ext <;> norm_num [Vec3.dot]
  have hcos : -((Vec3.mk 0 0 (-1)).dot (Vec3.mk 0 0 1)) / (Vec3.mk 0 0 (-1)).norm
      = 1 := by
    rw [Vec3.norm_negz]
    norm_num [Vec3.dot]
  simp only [Refractive.scatter, refrGlass, recordUpZ, rayNegZ, if_neg hincident,
    hreflect, refract_negz_eval, hcos, schlick_formula.2.1, Option.getD_some]

/-- Two Refractive::scatter calls with identical explicit arguments and the identical
supplied RNG stream produce different results when the hidden global draw differs:
with draw `0` the specular ray is the reflection `(0, 0, 1)`, with draw `1/2` it is
the refraction `(0, 0, -1)`. -/
theorem refrGlass_scatter_ne :
    refrGlass.scatter rayNegZ recordUpZ rngZero 0 ≠
      refrGlass.scatter rayNegZ recordUpZ rngZero (1 / 2) := by
  rw [refrGlass_scatter_eval, refrGlass_scatter_eval]
  rw [if_pos (by norm_num), if_neg (by norm_num)]
  simp only [ne_eq, Option.some.injEq, ScatterRecord.mk.injEq, Ray.mk.injEq,
    Vec3.mk.injEq]
  intro h
  have := h.1.2.1.2.2
  norm_num at this

/-- C2 (amended): Refractive::scatter ignores its supplied RNG stream entirely (any
two streams give the same result), and instead consumes a draw from the hidden
thread-local global RNG (`rand::random`), on which its output genuinely depends — so
a material scatter call is not a pure function of its explicit arguments and the
supplied RNG stream, and results are not reproducible from that stream alone. -/
theorem refractive_scatter_hidden_rng :
    (∀ (μ : Type) (m : Refractive) (ray : Ray) (record : HitRecord μ)
      (r1 r2 : Rng) (g : ℝ),
      m.scatter ray record r1 g = m.scatter ray record r2 g) ∧
    (∃ (m : Refractive) (ray : Ray) (record : HitRecord Unit) (r : Rng) (g g' : ℝ),
      m.scatter ray record r g ≠ m.scatter ray record r g') :=
  ⟨fun _ _ _ _ _ _ _ => rfl,
    ⟨refrGlass, rayNegZ, recordUpZ, rngZero, 0, 1 / 2, refrGlass_scatter_ne⟩⟩

/-- C2 counterexample: a concrete Refractive::scatter call is not a pure function of
its explicit arguments and the supplied RNG stream — with every explicit argument and
the supplied stream held fixed, changing only the hidden global `rand::random` draw
changes the returned scatter record. -/
theorem refractive_scatter_counterexample :
    refrGlass.scatter rayNegZ recordUpZ rngZero 0 ≠
      refrGlass.scatter rayNegZ recordUpZ rngZero (1 / 2) :=
  refrGlass_scatter_ne

/-- Self dot product of a nonzero vector is positive. -/
theorem Vec3.dot_self_pos {v : Vec3} (h : v ≠ Vec3.zeros) : 0 < v.dot v := by
  rcases lt_or_eq_of_le (show (0 : ℝ) ≤ v.dot v by
    simp only [Vec3.dot]
    linarith [mul_self_nonneg v.x, mul_self_nonneg v.y, mul_self_nonneg v.z]) with h0 | h0
  · exact h0
  · exfalso
    apply h
    have hdot : v.x * v.x + v.y * v.y + v.z * v.z = 0 := by
      simpa [Vec3.dot] using h0.symm
    have hx : v.x = 0 := by
      have h1 : v.x * v.x ≤ 0 := by
        nlinarith [mul_self_nonneg v.y, mul_self_nonneg v.z]
      exact mul_self_eq_zero.mp (le_antisymm h1 (mul_self_nonneg v.x))
    have hy : v.y = 0 := by
      have h1 : v.y * v.y ≤ 0 := by
        nlinarith [mul_self_nonneg v.x, mul_self_nonneg v.z]
      exact mul_self_eq_zero.mp (le_antisymm h1 (mul_self_nonneg v.y))
    have hz : v.z = 0 := by
      have h1 : v.z * v.z ≤ 0 := by
        nlinarith [mul_self_nonneg v.x, mul_self_nonneg v.y]
      exact mul_self_eq_zero.mp (le_antisymm h1 (mul_self_nonneg v.z))
    ext <;> simp [Vec3.zeros, hx, hy, hz]

/-- Dot product of a vector divided by a scalar with itself. -/
theorem Vec3.divScalar_dot (v : Vec3) (r : ℝ) :
    (v.divScalar r).dot (v.divScalar r) = v.dot v / (r * r) := by
  simp only [Vec3.divScalar, Vec3.dot]
  ring

/-- Roots of the quadratic `a t^2 + 2 b t + c` with positive leading coefficient and
positive quarter-discriminant `b^2 - a c`: exactly the two closed-form roots. -/
theorem quadratic_roots (a b c t : ℝ) (ha : 0 < a) (hd : 0 < b * b - a * c) :
    a * (t * t) + 2 * b * t + c = 0 ↔
      t = (-b - Real.sqrt (b * b - a * c)) / a ∨
      t = (-b + Real.sqrt (b * b - a * c)) / a := by
  have ha' : a ≠ 0 := ne_of_gt ha
  have hss : Real.sqrt (b * b - a * c) * Real.sqrt (b * b - a * c) = b * b - a * c :=
    Real.mul_self_sqrt hd.le
  constructor
  · intro h
    have key : (a * t + b - Real.sqrt (b * b - a * c)) *
        (a * t + b + Real.sqrt (b * b - a * c)) = 0 := by
      linear_combination a * h - hss
    rcases mul_eq_zero.mp key with h1 | h1
    · right
      rw [eq_div_iff ha']
      linarith
    · left
      rw [eq_div_iff ha']
      linarith
  · intro h
    rcases h with h1 | h1
    · subst h1
      field_simp
      linear_combination a ^ 2 * hss
    · subst h1
      field_simp
      linear_combination a ^ 2 * hss

/-- Expansion of the sphere intersection quadratic: for every parameter `t`,
`|o + t d - c(time)|^2 - r^2` equals `a t^2 + 2 b t + c` with the coefficients
computed by `Sphere::hit`. -/
theorem sphere_quad_expand {μ : Type} (s : Sphere μ) (ray : Ray) (t : ℝ) :
    (ray.point_at_parameter t - s.center ray.time).dot
        (ray.point_at_parameter t - s.center ray.time) -
      s.radius * s.radius =
    (ray.direction.dot ray.direction) * (t * t) +
      2 * ((ray.origin - s.center ray.time).dot ray.direction) * t +
      ((ray.origin - s.center ray.time).dot (ray.origin - s.center ray.time) -
        s.radius * s.radius) := by
  simp only [Ray.point_at_parameter, Vec3.dot, Vec3.sub_x, Vec3.sub_y, Vec3.sub_z,
    Vec3.add_x, Vec3.add_y, Vec3.add_z, Vec3.smul_x, Vec3.smul_y, Vec3.smul_z]
  ring

/-- A parameter is a root of the sphere quadratic iff it zeroes the expanded
polynomial with the coefficients computed by `Sphere::hit`. -/
theorem isRoot_iff {μ : Type} (s : Sphere μ) (ray : Ray) (t : ℝ) :
    s.IsRoot ray t ↔
      (ray.direction.dot ray.direction) * (t * t) +
        2 * ((ray.origin - s.center ray.time).dot ray.direction) * t +
        ((ray.origin - s.center ray.time).dot (ray.origin - s.center ray.time) -
          s.radius * s.radius) = 0 := by
  unfold Sphere.IsRoot
  rw [← sub_eq_zero, sphere_quad_expand]

/-- C3: for a nondegenerate ray, Sphere::hit returns none when the intersection
quadratic's discriminant is nonpositive (tangency is a miss); when it returns a
record, the record's t lies strictly inside (t_min, t_max), is a root of
`|o + t d - c(time)|^2 = r^2`, and is the smallest such root strictly inside the
interval (near root preferred over far); the record's point is the ray evaluated at
t, both normals equal (point - center(ray.time)) / radius, of unit length whenever
the radius is nonzero; and when the discriminant is positive yet hit returns none, no
root lies strictly inside the interval. -/
theorem sphere_hit_correct {μ : Type} (s : Sphere μ) (ray : Ray)
    (position_min position_max : ℝ) (hd : ray.direction ≠ Vec3.zeros) :
    (s.hitDiscriminant ray ≤ 0 → s.hit ray position_min position_max = none) ∧
    (∀ rec : HitRecord μ, s.hit ray position_min position_max = some rec →
      (position_min < rec.t ∧ rec.t < position_max) ∧
      s.IsRoot ray rec.t ∧
      (∀ t : ℝ, s.IsRoot ray t → position_min < t → t < position_max → rec.t ≤ t) ∧
      rec.point = ray.point_at_parameter rec.t ∧
      rec.shading_normal = (rec.point - s.center ray.time).divScalar s.radius ∧
      rec.geometric_normal = rec.shading_normal ∧
      (s.radius ≠ 0 → rec.shading_normal.dot rec.shading_normal = 1)) ∧
    (0 < s.hitDiscriminant ray → s.hit ray position_min position_max = none →
      ∀ t : ℝ, s.IsRoot ray t → ¬ (position_min < t ∧ t < position_max)) := by
  have ha : 0 < ray.direction.dot ray.direction := Vec3.dot_self_pos hd
  simp only [Sphere.hit, Sphere.hitDiscriminant]
  split_ifs with h1 h2 h3
  · -- positive discriminant, near root strictly inside the interval
    refine ⟨fun hle => absurd h1 (not_lt.mpr hle), fun rec hrec => ?_,
      fun _ habs => by simp at habs⟩
    have hEq := Option.some.inj hrec
    subst hEq
    have hroot : s.IsRoot ray
        ((-((ray.origin - s.center ray.time).dot ray.direction) -
            Real.sqrt (((ray.origin - s.center ray.time).dot ray.direction) *
                ((ray.origin - s.center ray.time).dot ray.direction) -
              (ray.direction.dot ray.direction) *
                ((ray.origin - s.center ray.time).dot
                    (ray.origin - s.center ray.time) -
                  s.radius * s.radius))) /
          (ray.direction.dot ray.direction)) :=
      (isRoot_iff s ray _).mpr ((quadratic_roots _ _ _ _ ha h1).mpr (Or.inl rfl))
    refine ⟨h2, hroot, ?_, rfl, rfl, rfl, fun hr => ?_⟩
    · intro t ht hmin' hmax'
      rcases (quadratic_roots _ _ _ t ha h1).mp ((isRoot_iff s ray t).mp ht) with
        rfl | rfl
      · exact le_refl _
      · have hs := Real.sqrt_pos.mpr h1
        exact (div_le_div_iff_of_pos_right ha).mpr (by linarith)
    · rw [Vec3.divScalar_dot]
      unfold Sphere.IsRoot at hroot
      rw [hroot]
      exact div_self (mul_ne_zero hr hr)
  · -- positive discriminant, near root rejected, far root strictly inside
    refine ⟨fun hle => absurd h1 (not_lt.mpr hle), fun rec hrec => ?_,
      fun _ habs => by simp at habs⟩
    have hEq := Option.some.inj hrec
    subst hEq
    have hroot : s.IsRoot ray
        ((-((ray.origin - s.center ray.time).dot ray.direction) +
            Real.sqrt (((ray.origin - s.center ray.time).dot ray.direction) *
                ((ray.origin - s.center ray.time).dot ray.direction) -
              (ray.direction.dot ray.direction) *
                ((ray.origin - s.center ray.time).dot
                    (ray.origin - s.center ray.time) -
                  s.radius * s.radius))) /
          (ray.direction.dot ray.direction)) :=
      (isRoot_iff s ray _).mpr ((quadratic_roots _ _ _ _ ha h1).mpr (Or.inr rfl))
    refine ⟨h3, hroot, ?_, rfl, rfl, rfl, fun hr => ?_⟩
    · intro t ht hmin' hmax'
      rcases (quadratic_roots _ _ _ t ha h1).mp ((isRoot_iff s ray t).mp ht) with
        rfl | rfl
      · exact absurd ⟨hmin', hmax'⟩ h2
      · exact le_refl _
    · rw [Vec3.divScalar_dot]
      unfold Sphere.IsRoot at hroot
      rw [hroot]
      exact div_self (mul_ne_zero hr hr)
  · -- positive discriminant, both roots outside the interval: miss
    refine ⟨fun _ => rfl, fun rec hrec => by simp at hrec, fun _ _ t ht hin => ?_⟩
    rcases (quadratic_roots _ _ _ t ha h1).mp ((isRoot_iff s ray t).mp ht) with
      rfl | rfl
    · exact h2 hin
    · exact h3 hin
  · -- nonpositive discriminant: miss
    exact ⟨fun _ => rfl, fun rec hrec => by simp at hrec,
      fun h0 _ => absurd h0 h1⟩

/-- C3 witness: the spec's worked example — the static sphere at `(0, 0, -1)` with
radius `1/2` and the ray from the origin toward `(0, 0, -1)`, whose direction is
nonzero, so the characterization applies. -/
theorem sphere_hit_correct_witness :
    rayNegZ.direction ≠ Vec3.zeros ∧
    (sphereC3.hitDiscriminant rayNegZ ≤ 0 → sphereC3.hit rayNegZ 0 10 = none) := by
  have hd : rayNegZ.direction ≠ Vec3.zeros := by
    simp only [rayNegZ, Vec3.zeros, ne_eq, Vec3.mk.injEq]
    norm_num
  exact ⟨hd, (sphere_hit_correct sphereC3 rayNegZ 0 10 hd).1⟩

end RealModel

namespace FP

namespace F

@[simp] theorem fmin_nan_left (b : F) : fmin nan b = b := rfl

@[simp] theorem fmin_nan_right (a : F) : fmin a nan = a := by cases a <;> rfl

@[simp] theorem fmin_ninf_left (b : F) : fmin ninf b = ninf := by cases b <;> rfl

@[simp] theorem fmin_ninf_right (a : F) : fmin a ninf = ninf := by cases a <;> rfl

@[simp] theorem fmin_pinf_pinf : fmin pinf pinf = pinf := rfl

@[simp] theorem fmin_pinf_fin (y : ℚ) : fmin pinf (fin y) = fin y := rfl

@[simp] theorem fmin_fin_pinf (x : ℚ) : fmin (fin x) pinf = fin x := rfl

/-- Rust f32 min of two finite values is the rational minimum. -/
@[simp] theorem fmin_fin (x y : ℚ) : fmin (fin x) (fin y) = fin (min x y) := by
  simp only [fmin, isNaN, fle, decide_eq_true_eq, Bool.false_eq_true, if_false]
  split_ifs with h
  · exact congrArg fin (min_eq_left h).symm
  · exact congrArg fin (min_eq_right (le_of_not_le h)).symm

@[simp] theorem fmax_nan_left (b : F) : fmax nan b = b := rfl

@[simp] theorem fmax_nan_right (a : F) : fmax a nan = a := by cases a <;> rfl

@[simp] theorem fmax_pinf_left (b : F) : fmax pinf b = pinf := by cases b <;> rfl

@[simp] theorem fmax_pinf_right (a : F) : fmax a pinf = pinf := by cases a <;> rfl

@[simp] theorem fmax_ninf_ninf : fmax ninf ninf = ninf := rfl

@[simp] theorem fmax_ninf_fin (y : ℚ) : fmax ninf (fin y) = fin y := rfl

@[simp] theorem fmax_fin_ninf (x : ℚ) : fmax (fin x) ninf = fin x := rfl

/-- Rust f32 max of two finite values is the rational maximum. -/
@[simp] theorem fmax_fin (x y : ℚ) : fmax (fin x) (fin y) = fin (max x y) := by
  simp only [fmax, isNaN, fle, decide_eq_true_eq, Bool.false_eq_true, if_false]
  split_ifs with h
  · exact congrArg fin (max_eq_left h).symm
  · exact congrArg fin (max_eq_right (le_of_not_le h)).symm

/-- Rust f32 min is commutative (NaN acts as an identity element). -/
theorem fmin_comm (a b : F) : fmin a b = fmin b a := by
  cases a <;> cases b <;> simp [min_comm]

/-- Rust f32 min is associative. -/
theorem fmin_assoc (a b c : F) : fmin (fmin a b) c = fmin a (fmin b c) := by
  cases a <;> cases b <;> cases c <;> simp [min_assoc]

/-- Rust f32 max is commutative (NaN acts as an identity element). -/
theorem fmax_comm (a b : F) : fmax a b = fmax b a := by
  cases a <;> cases b <;> simp [max_comm]

/-- Rust f32 max is associative. -/
theorem fmax_assoc (a b c : F) : fmax (fmax a b) c = fmax a (fmax b c) := by
  cases a <;> cases b <;> cases c <;> simp [max_assoc]

/-- Lower bounds transfer through f32 min on the left argument. -/
theorem fle_fmin_left (a b c : F) (h : fle a c = true) : fle (fmin a b) c = true := by
  cases a <;> cases b <;> cases c <;> simp_all [fle]

/-- Lower bounds transfer through f32 min on the right argument. -/
theorem fle_fmin_right (a b c : F) (h : fle b c = true) : fle (fmin a b) c = true := by
  rw [fmin_comm]
  exact fle_fmin_left b a c h

/-- Upper bounds transfer through f32 max on the left argument. -/
theorem fle_fmax_left (a b c : F) (h : fle c a = true) : fle c (fmax a b) = true := by
  cases a <;> cases b <;> cases c <;> simp_all [fle]

/-- Upper bounds transfer through f32 max on the right argument. -/
theorem fle_fmax_right (a b c : F) (h : fle c b = true) : fle c (fmax a b) = true := by
  rw [fmax_comm]
  exact fle_fmax_left b a c h

end F

/-- C6: surrounding_box takes the componentwise min of the two minimums and max of
the two maximums; it is commutative and associative (so a set of boxes can be folded
in any order); and the resulting box contains every point contained by either input
box. -/
theorem surrounding_box_correct :
    (∀ A B : AABB, (A.surrounding_box B).minimum =
        Vec3F.zipWith F.fmin A.minimum B.minimum ∧
      (A.surrounding_box B).maximum = Vec3F.zipWith F.fmax A.maximum B.maximum) ∧
    (∀ A B : AABB, A.surrounding_box B = B.surrounding_box A) ∧
    (∀ A B C : AABB, (A.surrounding_box B).surrounding_box C =
      A.surrounding_box (B.surrounding_box C)) ∧
    (∀ (A B : AABB) (p : Vec3F),
      A.containsPoint p = true ∨ B.containsPoint p = true →
      (A.surrounding_box B).containsPoint p = true) := by
  refine ⟨fun A B => ⟨rfl, rfl⟩, fun A B => ?_, fun A B C => ?_, fun A B p h => ?_⟩
  · simp [AABB.surrounding_box, Vec3F.zipWith, AABB.mk.injEq, Vec3F.mk.injEq,
      F.fmin_comm, F.fmax_comm]
  · simp [AABB.surrounding_box, Vec3F.zipWith, AABB.mk.injEq, Vec3F.mk.injEq,
      F.fmin_assoc, F.fmax_assoc]
  · simp only [AABB.containsPoint, AABB.surrounding_box, Vec3F.zipWith,
      Bool.and_eq_true] at h ⊢
    rcases h with ⟨⟨⟨h1, h2⟩, h3, h4⟩, h5, h6⟩ | ⟨⟨⟨h1, h2⟩, h3, h4⟩, h5, h6⟩
    · exact ⟨⟨⟨F.fle_fmin_left _ _ _ h1, F.fle_fmax_left _ _ _ h2⟩,
        F.fle_fmin_left _ _ _ h3, F.fle_fmax_left _ _ _ h4⟩,
        F.fle_fmin_left _ _ _ h5, F.fle_fmax_left _ _ _ h6⟩
    · exact ⟨⟨⟨F.fle_fmin_right _ _ _ h1, F.fle_fmax_right _ _ _ h2⟩,
        F.fle_fmin_right _ _ _ h3, F.fle_fmax_right _ _ _ h4⟩,
        F.fle_fmin_right _ _ _ h5, F.fle_fmax_right _ _ _ h6⟩

/-- C6 witness: a concrete point contained in the first of two concrete boxes is
contained in their surrounding box. -/
theorem surrounding_box_correct_witness :
    ((AABB.mk ⟨F.fin 0, F.fin 0, F.fin 0⟩ ⟨F.fin 1, F.fin 1, F.fin 1⟩).containsPoint
        ⟨F.fin 0, F.fin 1, F.fin 0⟩ = true ∨
      (AABB.mk ⟨F.fin 2, F.fin 2, F.fin 2⟩ ⟨F.fin 3, F.fin 3, F.fin 3⟩).containsPoint
        ⟨F.fin 0, F.fin 1, F.fin 0⟩ = true) ∧
    ((AABB.mk ⟨F.fin 0, F.fin 0, F.fin 0⟩ ⟨F.fin 1, F.fin 1, F.fin 1⟩).surrounding_box
        (AABB.mk ⟨F.fin 2, F.fin 2, F.fin 2⟩ ⟨F.fin 3, F.fin 3, F.fin 3⟩)).containsPoint
      ⟨F.fin 0, F.fin 1, F.fin 0⟩ = true :=
  ⟨Or.inl (by decide),
    surrounding_box_correct.2.2.2 _ _ _ (Or.inl (by decide))⟩

/-- Componentwise f32 max of two vectors is commutative. -/
theorem zipWith_fmax_comm (v w : Vec3F) :
    Vec3F.zipWith F.fmax v w = Vec3F.zipWith F.fmax w v := by
  ext <;> simp [Vec3F.zipWith, F.fmax_comm]

/-- C7: AABB::hit returns true exactly when the componentwise maximum of the per-axis
slab entry parameters (each the smaller of the two slab parameters computed with the
precomputed inverse direction) is at most (IEEE `<=`) the componentwise minimum of
the per-axis exit parameters; and an axis-aligned ray is tolerated branch-free — a
zero direction component's precomputed inverse is the signed infinity `+inf`. -/
theorem aabb_hit_slab (box : AABB) (ray : Ray3F) (pmin pmax : F) :
    box.hit ray pmin pmax = box.slabTest ray ∧
    (∀ i : Fin 3, ray.direction.nth i = F.fin 0 →
      ray.inverse_direction.nth i = F.pinf) := by
  constructor
  · simp only [AABB.hit, AABB.slabTest]
    rw [zipWith_fmax_comm]
  · intro i h
    fin_cases i <;> simp only [Vec3F.nth, Ray3F.inverse_direction] at h ⊢ <;>
      rw [h] <;> decide

/-- C7 witness: a concrete ray with a zero x direction component — its precomputed
inverse x component is `+inf`, and hit agrees with the slab formulation on a concrete
box. -/
theorem aabb_hit_slab_witness :
    (Ray3F.mk ⟨F.fin 0, F.fin 0, F.fin 0⟩ ⟨F.fin 0, F.fin 1, F.fin 1⟩
        (F.fin 0)).direction.nth 0 = F.fin 0 ∧
    (AABB.mk ⟨F.fin (-1), F.fin 2, F.fin 2⟩ ⟨F.fin 1, F.fin 3, F.fin 3⟩).hit
        (Ray3F.mk ⟨F.fin 0, F.fin 0, F.fin 0⟩ ⟨F.fin 0, F.fin 1, F.fin 1⟩ (F.fin 0))
        (F.fin 0) (F.fin 0) =
      (AABB.mk ⟨F.fin (-1), F.fin 2, F.fin 2⟩ ⟨F.fin 1, F.fin 3, F.fin 3⟩).slabTest
        (Ray3F.mk ⟨F.fin 0, F.fin 0, F.fin 0⟩ ⟨F.fin 0, F.fin 1, F.fin 1⟩ (F.fin 0)) ∧
    (Ray3F.mk ⟨F.fin 0, F.fin 0, F.fin 0⟩ ⟨F.fin 0, F.fin 1, F.fin 1⟩
        (F.fin 0)).inverse_direction.nth 0 = F.pinf :=
  ⟨by decide,
    (aabb_hit_slab (AABB.mk ⟨F.fin (-1), F.fin 2, F.fin 2⟩ ⟨F.fin 1, F.fin 3, F.fin 3⟩)
      (Ray3F.mk ⟨F.fin 0, F.fin 0, F.fin 0⟩ ⟨F.fin 0, F.fin 1, F.fin 1⟩ (F.fin 0))
      (F.fin 0) (F.fin 0)).1,
    (aabb_hit_slab (AABB.mk ⟨F.fin (-1), F.fin 2, F.fin 2⟩ ⟨F.fin 1, F.fin 3, F.fin 3⟩)
      (Ray3F.mk ⟨F.fin 0, F.fin 0, F.fin 0⟩ ⟨F.fin 0, F.fin 1, F.fin 1⟩ (F.fin 0))
      (F.fin 0) (F.fin 0)).2 0 (by decide)⟩

/-- C8 (amended): de_nan zeroes exactly the NaN channels — a NaN channel becomes
exactly 0 and every non-NaN channel (including infinities) passes through unchanged
before clamping; a `0/0` division is NaN in this model, so a 0/0 arising deep in a
scatter chain yields, after the de_nan scrub and the output clamp, a final channel of
exactly 0. -/
theorem de_nan_clamp_correct :
    (∀ (c : Vec3F) (i : Fin 3),
      (de_nan c).nth i = if (c.nth i).isNaN then F.fin 0 else c.nth i) ∧
    F.div (F.fin 0) (F.fin 0) = F.nan ∧
    (∀ (c : Vec3F) (i : Fin 3), (c.nth i).isNaN = true →
      clamp ((de_nan c).nth i) = F.fin 0) := by
  have h1 : ∀ (c : Vec3F) (i : Fin 3),
      (de_nan c).nth i = if (c.nth i).isNaN then F.fin 0 else c.nth i := by
    intro c i
    fin_cases i <;> simp [de_nan, Vec3F.nth]
  refine ⟨h1, by decide, fun c i h => ?_⟩
  rw [h1 c i, if_pos h]
  decide

/-- C8 witness: a concrete color whose first channel is the NaN produced by `0/0` —
after the de_nan scrub and the clamp the channel is exactly 0. -/
theorem de_nan_clamp_correct_witness :
    ((Vec3F.mk F.nan (F.fin 1) (F.fin 2)).nth 0).isNaN = true ∧
    clamp ((de_nan (Vec3F.mk F.nan (F.fin 1) (F.fin 2))).nth 0) = F.fin 0 :=
  ⟨by decide, de_nan_clamp_correct.2.2 (Vec3F.mk F.nan (F.fin 1) (F.fin 2)) 0
    (by decide)⟩

/-- C8 counterexample: an infinite channel is not zeroed at the scrub boundary — the
claim says every NaN or Inf channel is caught and zeroed, but de_nan passes `+inf`
through unchanged (it is not NaN), and the output clamp then maps it to 255, not 0. -/
theorem de_nan_inf_counterexample :
    de_nan ⟨F.pinf, F.fin 0, F.fin 0⟩ = ⟨F.pinf, F.fin 0, F.fin 0⟩ ∧
    F.pinf.isFinite = false ∧ F.pinf ≠ F.fin 0 ∧ clamp F.pinf = F.fin 255 := by
  decide

namespace F

@[simp] theorem mul_nan_left (b : F) : mul nan b = nan := by cases b <;> rfl

@[simp] theorem add_nan_right (a : F) : add a nan = nan := by cases a <;> rfl

/-- IEEE multiplication by a non-finite left factor is non-finite. -/
theorem isFinite_mul_left (a b : F) (h : a.isFinite = false) :
    (mul a b).isFinite = false := by
  cases a with
  | fin q => simp [isFinite] at h
  | nan => cases b <;> rfl
  | pinf => cases b <;> first | rfl | (simp only [mul]; split_ifs <;> rfl)
  | ninf => cases b <;> first | rfl | (simp only [mul]; split_ifs <;> rfl)

/-- IEEE addition with a non-finite right summand is non-finite. -/
theorem isFinite_add_right (a b : F) (h : b.isFinite = false) :
    (add a b).isFinite = false := by
  cases b with
  | fin q => simp [isFinite] at h
  | nan => cases a <;> rfl
  | pinf => cases a <;> rfl
  | ninf => cases a <;> rfl

/-- IEEE division by (positive) zero never yields a finite value. -/
theorem isFinite_div_fin_zero (a : F) : (div a (fin 0)).isFinite = false := by
  cases a with
  | nan => rfl
  | pinf => simp only [div]; split_ifs <;> rfl
  | ninf => simp only [div]; split_ifs <;> rfl
  | fin q =>
      simp only [div]
      split_ifs <;> rfl

@[simp] theorem div_nan_right (a : F) : div a nan = nan := by cases a <;> rfl

/-- Characterization of Rust f32 equality: both operands are the same infinity or
the same finite value (NaN is never equal to anything). -/
theorem beq_true_cases {a b : F} (h : beq a b = true) :
    (a = ninf ∧ b = ninf) ∨ (a = pinf ∧ b = pinf) ∨
    (∃ q : ℚ, a = fin q ∧ b = fin q) := by
  cases a <;> cases b <;> simp_all [beq]

end F

/-- C10: Sphere::center divides by `(end_time - start_time)` with no guard, so for
every sphere constructed with `start_time == end_time` (Rust f32 equality) the ratio
is `0/0` (or NaN outright) and every component of `center(start_time)` is NaN; and
for every time argument whatsoever every component of the returned center is
non-finite (NaN or a signed infinity) — no operation keeps sphere centers finite for
zero-length time intervals. -/
theorem sphere_center_zero_interval {μ : Type} (s : SphereF μ)
    (h : F.beq s.start_time s.end_time = true) :
    (∀ i : Fin 3, ((s.center s.start_time).nth i).isNaN = true) ∧
    (∀ (time : F) (i : Fin 3), ((s.center time).nth i).isFinite = false) := by
  have hden : F.sub s.end_time s.start_time = F.fin 0 ∨
      F.sub s.end_time s.start_time = F.nan := by
    rcases F.beq_true_cases h with ⟨h1, h2⟩ | ⟨h1, h2⟩ | ⟨q, h1, h2⟩ <;>
      rw [h1, h2] <;> simp [F.sub, F.neg, F.add]
  have hnum : F.sub s.start_time s.start_time = F.fin 0 ∨
      F.sub s.start_time s.start_time = F.nan := by
    cases s.start_time <;> simp [F.sub, F.neg, F.add]
  have hnan0 : F.div (F.sub s.start_time s.start_time)
      (F.sub s.end_time s.start_time) = F.nan := by
    rcases hnum with h1 | h1 <;> rcases hden with h2 | h2 <;> rw [h1, h2] <;> decide
  have hratio : ∀ time : F,
      (F.div (F.sub time s.start_time)
        (F.sub s.end_time s.start_time)).isFinite = false := by
    intro time
    rcases hden with h2 | h2 <;> rw [h2]
    · exact F.isFinite_div_fin_zero _
    · rw [F.div_nan_right]
      rfl
  constructor
  · intro i
    fin_cases i <;>
      simp [SphereF.center, Vec3F.add, Vec3F.smul, Vec3F.sub, Vec3F.nth, hnan0,
        F.isNaN]
  · intro time i
    fin_cases i <;>
      simp only [SphereF.center, Vec3F.add, Vec3F.smul, Vec3F.sub, Vec3F.nth] <;>
      exact F.isFinite_add_right _ _ (F.isFinite_mul_left _ _ (hratio time))

/-- C10 witness: the concrete sphere with `start_time = end_time = 0` — its center at
the start time has NaN first component. -/
theorem sphere_center_zero_interval_witness :
    F.beq sphereF0.start_time sphereF0.end_time = true ∧
    ((sphereF0.center sphereF0.start_time).nth 0).isNaN = true :=
  ⟨by decide, (sphere_center_zero_interval sphereF0 (by decide)).1 0⟩

end FP

end Renderfoot
